import Mathlib

/-!
Shallow embedding of the VSNotebooks core: the kernel-message aggregation
state machine (`src-backend/contentHelpers.ts`), the code-submission
normalization (`src-backend/interpreter.ts`), and the notebook codec /
card manager (`CardManager`: import, export, custom markdown cards).

JavaScript values flowing through the program are modelled by the `Json`
type below, with an explicit `undefined` constructor for JavaScript's
`undefined` (absent object properties).  Statements that can throw a
`TypeError` at runtime are modelled with `Except Unit`, and the
aggregator records a `threw` flag (partial field mutations made before
the throw are kept, matching the mutable-static-field semantics of the
source).
-/

/-- A JavaScript/JSON value.  `undefined` is JavaScript `undefined`. -/
inductive Json where
  | undefined : Json
  | null : Json
  | bool : Bool → Json
  | num : Int → Json
  | str : String → Json
  | arr : List Json → Json
  | obj : List (String × Json) → Json

/-- Is the value `null` or `undefined`. -/
def Json.isNullish : Json → Bool
  | .undefined => true
  | .null => true
  | _ => false

/-- String coercion of a value, as JavaScript's `String(x)` / template
literals produce it (arrays join their elements with `","`, mapping
`null`/`undefined` elements to the empty string; plain objects render as
`"[object Object]"`). -/
def Json.toJsString : Json → String
  | .undefined => "undefined"
  | .null => "null"
  | .bool b => cond b "true" "false"
  | .num n => toString n
  | .str s => s
  | .obj _ => "[object Object]"
  | .arr xs => String.intercalate "," (xs.attach.map (fun el =>
      if el.1.isNullish then "" else Json.toJsString el.1))
decreasing_by
  simp_wf
  have hlt := List.sizeOf_lt_of_mem el.2
  omega

/-- `Array.prototype.join(sep)`: elements are string-coerced, with
`null`/`undefined` becoming the empty string. -/
def jsJoin (xs : List Json) (sep : String) : String :=
  String.intercalate sep (xs.map (fun el =>
    if el.isNullish then "" else el.toJsString))

/-- Key presence on a field list (the JavaScript `in` operator on an
object literal). -/
def hasKey (fields : List (String × Json)) (k : String) : Bool :=
  fields.any (fun p => p.1 = k)

/-- Property read on a field list: the stored value, or `undefined` when
the key is absent. -/
def getKey (fields : List (String × Json)) (k : String) : Json :=
  match fields.find? (fun p => p.1 = k) with
  | some p => p.2
  | none => .undefined

/-- Property write on a field list: overwrite in place when the key is
present, append otherwise (JavaScript insertion-order semantics). -/
def setKey : List (String × Json) → String → Json → List (String × Json)
  | [], k, v => [(k, v)]
  | (k', v') :: rest, k, v =>
      if k' = k then (k', v) :: rest else (k', v') :: setKey rest k v

/-- Property deletion on a field list (the JavaScript `delete` operator). -/
def delKey (fields : List (String × Json)) (k : String) : List (String × Json) :=
  fields.filter (fun p => p.1 ≠ k)

/-- Property access `j[k]` on an arbitrary value that is known not to be
`null`/`undefined`: object lookup, `undefined` on primitives. -/
def jsProp (j : Json) (k : String) : Json :=
  match j with
  | .obj fs => getKey fs k
  | _ => .undefined

/-- Member access `j.k` as an effect: throws (`TypeError`) on
`null`/`undefined`, yields `undefined` on other primitives. -/
def jsGet (j : Json) (k : String) : Except Unit Json :=
  match j with
  | .undefined => .error ()
  | .null => .error ()
  | .obj fs => .ok (getKey fs k)
  | _ => .ok .undefined

/-- Strict equality `j === s` against a string literal. -/
def jsStrictEqStr (j : Json) (s : String) : Bool :=
  match j with
  | .str t => t = s
  | _ => false

/-- Loose equality `j == s` against a non-numeric string literal:
strings compare directly, arrays and objects compare via their string
coercion, everything else is `false` (numeric conversion of a
non-numeric literal is `NaN`). -/
def jsLooseEqStr (j : Json) (s : String) : Bool :=
  match j with
  | .str t => t = s
  | .arr xs => Json.toJsString (.arr xs) = s
  | .obj _ => "[object Object]" = s
  | _ => false

/-- JavaScript falsiness of a value. -/
def jsFalsy : Json → Bool
  | .undefined => true
  | .null => true
  | .bool b => !b
  | .num n => n = 0
  | .str s => s = ""
  | _ => false

/-- Is the value a string (`typeof j === "string"`). -/
def Json.isStr : Json → Bool
  | .str _ => true
  | _ => false

/-- One output entry of a card (`CardOutput(type, output)` of
`neuron-ipe-types`): a kind tag and a payload, both JavaScript values as
the source passes them. -/
structure CardOutput where
  kind : Json
  payload : Json

/-- An Execution Record (the `Card` class of `neuron-ipe-types`), with
the fields the repository constructs positionally:
`new Card(id, title, sourceCode, outputs, jupyterData, kernel)`; the
`isCustomMarkdown` flag defaults to false and is set by the import path
and the frontend. -/
structure Card where
  id : Nat
  title : String
  sourceCode : Json
  outputs : List CardOutput
  jupyterData : Json
  kernel : Json
  isCustomMarkdown : Bool := false

/-! ## Message aggregator (`ContentHelpers`, `src-backend/contentHelpers.ts`) -/

/-- The mutable `jupyterData` object of `ContentHelpers`: the interchange
snapshot of the card being created.  Each field is `none` while the
corresponding property has not been assigned. -/
structure JupyterData where
  cell_type : Option Json := none
  execution_count : Option Json := none
  source : Option Json := none
  metadata : Option Json := none
  outputs : Option (List Json) := none

/-- The static accumulation state of `ContentHelpers`. -/
structure AggState where
  sourceTmp : String := ""
  contentTmp : List CardOutput := []
  id : Nat := 0
  jupyterData : JupyterData := {}
  currentKernel : Option String := none

/-- The initial state of the `ContentHelpers` statics. -/
def aggInit : AggState := {}

/-- A kernel IOPub message as `processContent` consumes it: the content
object's fields, the message metadata, and `header.msg_type`. -/
structure IOPubMsg where
  content : List (String × Json)
  metadata : Json := .obj []
  msg_type : String

/-- The fixed MIME-type preference list of
`ContentHelpers.chooseTypeFromComplexData`. -/
def validDataTypes : List String :=
  ["application/vnd.jupyter", "application/vnd.jupyter.cells",
   "application/vnd.jupyter.dragindex", "application/x-ipynb+json",
   "application/geo+json", "application/vnd.plotly.v1+json",
   "application/vdom.v1+json", "text/html", "image/svg+xml",
   "image/png", "image/jpeg", "text/markdown", "application/pdf",
   "text/latex", "application/json", "text/plain"]

/-- `ContentHelpers.validateData`: the field is present with a value
other than `undefined` (`data[field] !== undefined`). -/
def validateData (data : Json) (field : String) : Bool :=
  match jsProp data field with
  | .undefined => false
  | _ => true

/-- `ContentHelpers.chooseTypeFromComplexData`: filter the preference
list by `validateData` and take the first entry (`undefined` when none
qualifies).  Evaluating `data[field]` throws when `data` is
`null`/`undefined`, hence the `Except`. -/
def chooseTypeFromComplexData (data : Json) : Except Unit Json :=
  match data with
  | .undefined => .error ()
  | .null => .error ()
  | _ =>
      .ok (match (validDataTypes.filter (fun t => validateData data t)).head? with
           | some t => .str t
           | none => .undefined)

/-- `ContentHelpers.interpretRich`: pick the preferred representation
kind and pair it with `data[chosenType]` (a `chosenType` of `undefined`
is coerced to the property key `"undefined"`). -/
def interpretRich (data : Json) : Except Unit CardOutput :=
  match chooseTypeFromComplexData data with
  | .error e => .error e
  | .ok chosen =>
      .ok ⟨chosen, match chosen with
                   | .str t => jsProp data t
                   | _ => jsProp data "undefined"⟩

/-- The object appended to `jupyterData.outputs` by `processContent`'s
trailing block: the message content, tagged with
`output_type = header.msg_type`, with any `transient` field deleted. -/
def auxOutput (msg : IOPubMsg) : Json :=
  .obj (delKey (setKey msg.content "output_type" (.str msg.msg_type)) "transient")

/-- Apply the trailing snapshot-copy block of `processContent` (lines
117–130): store the message metadata and append the tagged content to
`jupyterData.outputs` (initializing the list when absent). -/
def applyAux (msg : IOPubMsg) (s : AggState) : AggState :=
  let jd := s.jupyterData
  let out := auxOutput msg
  let newOutputs : List Json :=
    match jd.outputs with
    | some xs => xs ++ [out]
    | none => [out]
  { s with jupyterData := { jd with metadata := some msg.metadata,
                                    outputs := some newOutputs } }

/-- `ContentHelpers.makeCard`: synthesize empty `metadata`/`outputs`
when neither was accumulated, emit the card, and reset `contentTmp` and
`jupyterData` (but not `sourceTmp`), incrementing the id counter. -/
def makeCard (s : AggState) : AggState × Card :=
  let jd :=
    if s.jupyterData.metadata.isNone && s.jupyterData.outputs.isNone then
      { s.jupyterData with metadata := some (.obj []), outputs := some [] }
    else s.jupyterData
  let jdJson : Json :=
    .obj ((match jd.cell_type with | some v => [("cell_type", v)] | none => [])
      ++ (match jd.execution_count with
          | some .undefined => []
          | some v => [("execution_count", v)]
          | none => [])
      ++ (match jd.source with | some v => [("source", v)] | none => [])
      ++ (match jd.metadata with | some v => [("metadata", v)] | none => [])
      ++ (match jd.outputs with | some xs => [("outputs", .arr xs)] | none => []))
  let card : Card :=
    { id := s.id,
      title := "Card " ++ toString s.id,
      sourceCode := .str s.sourceTmp,
      outputs := s.contentTmp,
      jupyterData := jdJson,
      kernel := match s.currentKernel with
                | some k => .str k
                | none => .undefined }
  ({ s with contentTmp := [], jupyterData := {}, id := s.id + 1 }, card)

/-- The result of processing one message: the new static state, the
cards fired on `onCardReady`, the statuses fired on `onStatusChanged`,
and whether the handler threw a `TypeError` partway (later statements of
the handler are then skipped, but mutations already made are kept). -/
structure StepResult where
  state : AggState
  cards : List Card
  statuses : List String
  threw : Bool

/-- `ContentHelpers.processContent`: classify the message by field
presence in the source's `else if` order, mutate the accumulation
buffer, and — for every message carrying neither `execution_state` nor
`code` — run the trailing snapshot-copy block. -/
def processContent (msg : IOPubMsg) (s : AggState) : StepResult :=
  let c := msg.content
  if hasKey c "execution_state" then
    let status := getKey c "execution_state"
    let (s1, cards) :=
      if jsStrictEqStr status "idle" then
        let r := makeCard s
        (r.1, [r.2])
      else (s, [])
    let statuses := match status with | .str t => [t] | _ => []
    ⟨s1, cards, statuses, false⟩
  else if hasKey c "code" then
    let code := getKey c "code"
    let s1 := match code with
              | .str t => { s with sourceTmp := t }
              | _ => s
    let jd1 := { s1.jupyterData with
                 cell_type := some (.str "code"),
                 execution_count := some (getKey c "execution_count") }
    match code with
    | .str t =>
        let jd2 := { jd1 with
                     source := some (.arr ((t.splitOn "\n").map
                       (fun el => .str (el ++ "\n")))) }
        ⟨{ s1 with jupyterData := jd2 }, [], [], false⟩
    | _ =>
        -- `(msg.content.code as string).split` throws on a non-string
        ⟨{ s1 with jupyterData := jd1 }, [], [], true⟩
  else if hasKey c "name" then
    let output := getKey c "text"
    let s1 := match output with
              | .str t => { s with contentTmp :=
                              s.contentTmp ++ [⟨.str "stdout", .str t⟩] }
              | _ => s
    ⟨applyAux msg s1, [], [], false⟩
  else if hasKey c "data" then
    match interpretRich (getKey c "data") with
    | .ok co => ⟨applyAux msg { s with contentTmp := s.contentTmp ++ [co] },
                 [], [], false⟩
    | .error _ => ⟨s, [], [], true⟩
  else if hasKey c "ename" && hasKey c "evalue" && hasKey c "traceback" then
    match getKey c "evalue" with
    | .str _ =>
        -- `getMissingModule` runs here (external prompt, no state change)
        match getKey c "traceback" with
        | .arr xs =>
            ⟨applyAux msg { s with contentTmp :=
                s.contentTmp ++ [⟨.str "error", .str (jsJoin xs "\n")⟩] },
             [], [], false⟩
        | _ =>
            -- `.join` on a non-array traceback throws
            ⟨s, [], [], true⟩
    | _ =>
        -- `evalue.match` throws on a non-string
        ⟨s, [], [], true⟩
  else
    ⟨applyAux msg s, [], [], false⟩

/-- Run `processContent` over a message sequence, collecting the cards
fired on `onCardReady` in order. -/
def runAgg : List IOPubMsg → AggState → AggState × List Card
  | [], s => (s, [])
  | m :: ms, s =>
      let r := processContent m s
      let rest := runAgg ms r.state
      (rest.1, r.cards ++ rest.2)

/-- Whether a message is a status message whose execution-state value is
exactly the string `"idle"`. -/
def isIdleMsg (m : IOPubMsg) : Bool :=
  hasKey m.content "execution_state" &&
    jsStrictEqStr (getKey m.content "execution_state") "idle"

/-- The visible output entry a single message contributes to
`contentTmp`, read off the branches of `processContent`. -/
def producedOutput (m : IOPubMsg) : Option CardOutput :=
  let c := m.content
  if hasKey c "execution_state" then none
  else if hasKey c "code" then none
  else if hasKey c "name" then
    match getKey c "text" with
    | .str t => some ⟨.str "stdout", .str t⟩
    | _ => none
  else if hasKey c "data" then
    match interpretRich (getKey c "data") with
    | .ok co => some co
    | .error _ => none
  else if hasKey c "ename" && hasKey c "evalue" && hasKey c "traceback" then
    match getKey c "evalue" with
    | .str _ =>
        match getKey c "traceback" with
        | .arr xs => some ⟨.str "error", .str (jsJoin xs "\n")⟩
        | _ => none
    | _ => none
  else none

/-- The six message classes of the aggregator dispatch. -/
inductive MsgCase where
  | status | echo | stream | rich | errorMsg | other

/-- The `else if` dispatch of `processContent` as a classifier. -/
def classifyMsg (c : List (String × Json)) : MsgCase :=
  if hasKey c "execution_state" then .status
  else if hasKey c "code" then .echo
  else if hasKey c "name" then .stream
  else if hasKey c "data" then .rich
  else if hasKey c "ename" && hasKey c "evalue" && hasKey c "traceback" then .errorMsg
  else .other

/-! ## Dependency-gap detector (`ContentHelpers.getMissingModule`) and
code-submission normalization (`Interpreter.executeCode`) -/

/-- The literal prefix of the regex `/No module named \'(.+?)\'/`. -/
def modulePat : List Char := "No module named '".data

/-- Characters of `rest` strictly before its first quote, `none` when a
newline intervenes or no quote exists (the lazy `.+?` group cannot cross
a newline and must be closed by a quote). -/
def grabGroup : List Char → Option (List Char)
  | [] => none
  | c :: rest =>
      if c = '\'' then some []
      else if c = '\n' then none
      else (grabGroup rest).map (fun g => c :: g)

/-- Match the lazy group `(.+?)\'` at the current position: at least one
non-newline character, closed by the nearest following quote. -/
def matchQuoted : List Char → Option (List Char)
  | [] => none
  | c :: rest =>
      if c = '\n' then none
      else (grabGroup rest).map (fun g => c :: g)

/-- Scan every start position left to right for a full match of
`/No module named \'(.+?)\'/`, returning the first captured group. -/
def scanMatch : List Char → Option (List Char)
  | [] => none
  | c :: rest =>
      match (if modulePat.isPrefixOf (c :: rest) then
               matchQuoted ((c :: rest).drop modulePat.length)
             else none) with
      | some g => some g
      | none => scanMatch rest

/-- The pure detection part of `ContentHelpers.getMissingModule`: the
first captured group of the regex with every quote character removed
(`moduleMatch[1].replace(/\'/g, "")`), or nothing when the regex does
not match. -/
def getMissingModule (evalue : String) : Option String :=
  (scanMatch evalue.data).map (fun g => ⟨g.filter (fun c => c ≠ '\'')⟩)

/-- The string contains a full occurrence of the module pattern:
`"No module named '"`, then a nonempty newline-free group, then a
closing quote. -/
def hasModulePattern (s : String) : Prop :=
  ∃ pre m post, s.data = pre ++ modulePat ++ m ++ '\'' :: post ∧
    m ≠ [] ∧ '\n' ∉ m

/-- `String.prototype.replace` with a *string* pattern: replace only the
first occurrence (helper on character lists). -/
def replaceFirstAux (pat rep : List Char) : List Char → List Char
  | [] => []
  | c :: rest =>
      if pat.isPrefixOf (c :: rest) then rep ++ (c :: rest).drop pat.length
      else c :: replaceFirstAux pat rep rest

/-- JavaScript `s.replace(pat, rep)` for a string `pat`: only the first
occurrence is replaced. -/
def jsReplaceFirst (s pat rep : String) : String :=
  ⟨replaceFirstAux pat.data rep.data s.data⟩

/-- The code text `Interpreter.executeCode` actually submits to the
kernel: `source.replace("\r\n", "\n")` (interpreter.ts line 125). -/
def executeCodeSent (source : String) : String :=
  jsReplaceFirst source "\r\n" "\n"

/-- Does `s` contain `pat` as a substring. -/
def strContainsSub (s pat : String) : Bool :=
  go s.data pat.data
where
  go : List Char → List Char → Bool
  | [], pat => pat.isEmpty
  | c :: rest, pat => pat.isPrefixOf (c :: rest) || go rest pat

/-! ## Notebook codec (`CardManager`: import/export, custom cards) -/

/-- The `metadataPy` template of `CardManager`. -/
def metadataPy : Json :=
  .obj [("kernelspec", .obj [("display_name", .str "Python 3"),
                             ("language", .str "python"),
                             ("name", .str "python3")]),
        ("language_info", .obj
          [("codemirror_mode", .obj [("name", .str "ipython"),
                                     ("version", .num 3)]),
           ("file_extension", .str ".py"),
           ("mimetype", .str "text/x-python"),
           ("name", .str "python"),
           ("nbconvert_exporter", .str "python"),
           ("pygments_lexer", .str "ipython3"),
           ("version", .str "3.6.4")])]

/-- The `metadataR` template of `CardManager`. -/
def metadataR : Json :=
  .obj [("kernelspec", .obj [("display_name", .str "R"),
                             ("language", .str "R"),
                             ("name", .str "ir")]),
        ("language_info", .obj
          [("codemirror_mode", .str "r"),
           ("file_extension", .str ".r"),
           ("mimetype", .str "text/x-r-source"),
           ("name", .str "R"),
           ("pygments_lexer", .str "r"),
           ("version", .str "3.5.0")])]

/-- A sub-document assembled by `exportToJupyter` for one flavor. -/
def subDoc (cells : List Json) (metadata : Json) : Json :=
  .obj [("cells", .arr cells), ("metadata", metadata),
        ("nbformat", .num 4), ("nbformat_minor", .num 2)]

/-- A file write performed by `CardManager.writeToFile`, together with
the "Exported … cards to …" notification it fires. -/
structure WriteEvent where
  kernelName : String
  filePath : String
  data : Json

/-- `CardManager.writeToFile`: throw when no workspace is open (before
any write), write the file and fire the notification only when the cell
list is nonempty, do nothing otherwise.  (A failure of the write itself
re-throws a save error; the write is external and modelled as
succeeding.) -/
def writeToFile (jupyterFileData : Json) (cells : List Json)
    (kernelName : String) (fileName : Option String) (hasWorkspace : Bool) :
    Except Unit (List WriteEvent) :=
  if !hasWorkspace then .error ()
  else
    let filePath := match fileName with
                    | none => "output_" ++ kernelName ++ ".ipynb"
                    | some f => f
    if cells.length > 0 then .ok [⟨kernelName, filePath, jupyterFileData⟩]
    else .ok []

/-- Outcome of `CardManager.exportToJupyter`: completed, caught an error
from `writeToFile` (shown with `showErrorMessage`), or threw before the
`try` block (an out-of-range index made a selected card `undefined`). -/
inductive ExportOutcome where
  | ok | caughtError | thrown

/-- The cards selected for export: `indexes.map((i) => this.cards[i])`,
failing when any index is out of range (the later `.filter` would read
`.kernel` of `undefined`). -/
def selectCards (cards : List Card) : Option (List Nat) → Except Unit (List Card)
  | none => .ok cards
  | some idxs =>
      idxs.foldr (fun i acc =>
        match cards.get? i, acc with
        | some c, .ok rest => .ok (c :: rest)
        | _, _ => .error ()) (.ok [])

/-- `CardManager.exportToJupyter`: partition the selected cards by
strict kernel equality into the python3 and ir sub-documents and write
the two files in order.  Returns the write events that happened and the
outcome. -/
def exportToJupyter (cards : List Card) (indexes : Option (List Nat))
    (fileName : Option String) (hasWorkspace : Bool) :
    List WriteEvent × ExportOutcome :=
  match selectCards cards indexes with
  | .error _ => ([], .thrown)
  | .ok sel =>
      let pythonCells := (sel.filter (fun c => jsStrictEqStr c.kernel "python3")).map
        (fun c => c.jupyterData)
      let rCells := (sel.filter (fun c => jsStrictEqStr c.kernel "ir")).map
        (fun c => c.jupyterData)
      match writeToFile (subDoc pythonCells metadataPy) pythonCells
              "python3" fileName hasWorkspace with
      | .error _ => ([], .caughtError)
      | .ok evs1 =>
          match writeToFile (subDoc rCells metadataR) rCells
                  "r" fileName hasWorkspace with
          | .error _ => (evs1, .caughtError)
          | .ok evs2 => (evs1 ++ evs2, .ok)

/-- The minimal markdown cell shape synthesized for a user-authored
markdown card. -/
def customMarkdownShape (sourceCode : Json) : Json :=
  .obj [("cell_type", .str "markdown"), ("metadata", .obj []),
        ("source", sourceCode)]

/-- `CardManager.addCustomCard`: assign the next id and, for a card
flagged `isCustomMarkdown`, force the kernel to `"python3"` and replace
its interchange data with the synthesized markdown shape; then append. -/
def addCustomCard (cards : List Card) (card : Card) (idCtr : Nat) :
    List Card × Nat :=
  let c1 := { card with id := idCtr }
  let c2 :=
    if c1.isCustomMarkdown then
      { c1 with kernel := .str "python3",
                jupyterData := customMarkdownShape c1.sourceCode }
    else c1
  (cards ++ [c2], idCtr + 1)

/-- `CardManager.editCustomCard`: when the index is in range, apply the
same markdown normalization to the incoming card and store it at the
index; otherwise do nothing. -/
def editCustomCard (cards : List Card) (index : Int) (card : Card) :
    List Card :=
  if index > -1 && index < cards.length then
    let c2 :=
      if card.isCustomMarkdown then
        { card with kernel := .str "python3",
                    jupyterData := customMarkdownShape card.sourceCode }
      else card
    cards.set index.toNat c2
  else cards

/-- The kernel-specification access chain
`jsonContent.metadata.kernelspec.name` (throws when `metadata` or
`kernelspec` is `null`/`undefined`). -/
def kernelspecName (j : Json) : Except Unit Json :=
  match jsGet j "metadata" with
  | .error e => .error e
  | .ok m =>
      match jsGet m "kernelspec" with
      | .error e => .error e
      | .ok ks => jsGet ks "name"

/-- `CardManager.processJupyterOutputs` applied to one element of the
outputs array: a `name`-keyed shape becomes `stdout` (string text
directly, array text joined), a `traceback`-keyed shape becomes `error`
(lines joined by newline), anything else goes through the rich-output
classifier over its `data` field. -/
def processOneOutput (o : Json) : Except Unit CardOutput :=
  match o with
  | .obj fs =>
      if hasKey fs "name" then
        match getKey fs "text" with
        | .str t => .ok ⟨.str "stdout", .str t⟩
        | .arr xs => .ok ⟨.str "stdout", .str (jsJoin xs "")⟩
        | _ => .error ()
      else if hasKey fs "traceback" then
        match getKey fs "traceback" with
        | .arr xs => .ok ⟨.str "error", .str (jsJoin xs "\n")⟩
        | _ => .error ()
      else
        match chooseTypeFromComplexData (getKey fs "data") with
        | .error e => .error e
        | .ok t =>
            .ok ⟨t, match t with
                    | .str k => jsProp (getKey fs "data") k
                    | _ => jsProp (getKey fs "data") "undefined"⟩
  | _ =>
      -- `Object.keys` throws on `null`/`undefined`; a primitive or array
      -- has no `name`/`traceback` key and its `.data` is `undefined`,
      -- which makes the classifier's property access throw
      .error ()

/-- `CardManager.processJupyterOutputs`: a falsy outputs value yields
the empty list, a non-array truthy value throws at `.map`, otherwise
each element is converted in order. -/
def processJupyterOutputs (outv : Json) : Except Unit (List CardOutput) :=
  if jsFalsy outv then .ok []
  else
    match outv with
    | .arr outs =>
        outs.foldr (fun o acc =>
          match processOneOutput o, acc with
          | .ok co, .ok rest => .ok (co :: rest)
          | .error e, _ => .error e
          | _, .error e => .error e) (.ok [])
    | _ => .error ()

/-- The first mapping pass of `CardManager.importJupyter`: build one
card per cell in document order, threading the shared id counter.  Any
`TypeError` in the pass aborts the whole pass before the second
(emission) pass runs. -/
def buildCards (j : Json) : List Json → Nat → Except Unit (List Card × Nat)
  | [], ctr => .ok ([], ctr)
  | cell :: rest, ctr =>
      match jsGet cell "source" with
      | .error e => .error e
      | .ok s0 =>
          let source : Json := match s0 with
                               | .arr xs => .str (jsJoin xs "")
                               | v => v
          match jsGet cell "outputs" with
          | .error e => .error e
          | .ok outv =>
              match processJupyterOutputs outv with
              | .error e => .error e
              | .ok outs =>
                  match kernelspecName j with
                  | .error e => .error e
                  | .ok kn =>
                      let card : Card :=
                        { id := ctr,
                          title := "Card " ++ toString ctr,
                          sourceCode := source,
                          outputs := outs,
                          jupyterData := cell,
                          kernel := kn,
                          isCustomMarkdown :=
                            jsLooseEqStr (jsProp cell "cell_type") "markdown" }
                      match buildCards j rest (ctr + 1) with
                      | .error e => .error e
                      | .ok (restCards, ctr') => .ok (card :: restCards, ctr')

/-- The plain-text source buffer reconstructed by `importJupyter`: each
cell's source, markdown sources prefixed per line with `"# "`, all cells
joined by newline (non-string sources are coerced by the final
`join`). -/
def importContent : List Json → Except Unit String
  | cells =>
      match cells.foldr (fun cell (acc : Except Unit (List Json)) =>
        match jsGet cell "source", acc with
        | .ok s0, .ok rest =>
            let md := jsLooseEqStr (jsProp cell "cell_type") "markdown"
            let line : Json :=
              match s0 with
              | .arr xs =>
                  if md then
                    .str (String.join (xs.map (fun el => "# " ++ el.toJsString)))
                  else .str (jsJoin xs "")
              | v => if md then .str ("# " ++ v.toJsString) else v
            .ok (line :: rest)
        | .error e, _ => .error e
        | _, .error e => .error e) (.ok []) with
      | .error e => .error e
      | .ok lines => .ok (jsJoin lines "\n")

/-- Everything `importJupyter` runs after the emission pass: the
language `switch` over `jsonContent.metadata.kernelspec.name` and the
reconstruction of the plain-text source buffer. -/
def importTail (j : Json) : Except Unit String :=
  match kernelspecName j with
  | .error e => .error e
  | .ok _ =>
      match jsGet j "cells" with
      | .error e => .error e
      | .ok cv =>
          match cv with
          | .arr cells => importContent cells
          | _ => .error ()

/-- `CardManager.importJupyter`: build a card per cell, emit them all
(second `.map`, via `ContentHelpers.addNewCard`) only when the build
pass completed, then run the tail; any exception is caught once and
surfaced as the single "unknown format" notice.  Returns the cards
emitted to the collection owner and whether the notice was shown. -/
def importJupyter (j : Json) (startId : Nat) : List Card × Bool :=
  match ((match jsGet j "cells" with
          | .error e => .error e
          | .ok cv =>
              match cv with
              | .arr cells => buildCards j cells startId
              | _ => .error ()) : Except Unit (List Card × Nat)) with
  | .error _ => ([], true)
  | .ok (cards, _) =>
      match importTail j with
      | .error _ => (cards, true)
      | .ok _ => (cards, false)

/-- The structural shape import requires: a `cells` list and a readable
kernel specification name. -/
def goodNotebookShape (j : Json) : Prop :=
  (∃ cs, jsGet j "cells" = .ok (.arr cs)) ∧ (∃ v, kernelspecName j = .ok v)

/-! ## Concrete example inputs -/

/-- A stream-output message whose text is a single string. -/
def streamMsgEx : IOPubMsg :=
  ⟨[("name", .str "stdout"), ("text", .str "hi")], .obj [], "stream"⟩

/-- A stream-output message whose text arrives as an array of fragments. -/
def streamArrMsgEx : IOPubMsg :=
  ⟨[("name", .str "stdout"), ("text", .arr [.str "a", .str "b"])], .obj [], "stream"⟩

/-- A terminal status message. -/
def idleMsgEx : IOPubMsg :=
  ⟨[("execution_state", .str "idle")], .obj [], "status"⟩

/-- An echo-of-source message for the given code text. -/
def echoMsgEx (code : String) : IOPubMsg :=
  ⟨[("code", .str code), ("execution_count", .num 1)], .obj [], "execute_input"⟩

/-- An aggregation state with pending source code and one pending output. -/
def c3StateEx : AggState :=
  { sourceTmp := "x", contentTmp := [⟨.str "stdout", .str "hi"⟩] }

/-- A rich payload offering html and plain text. -/
def richBothEx : Json :=
  .obj [("text/html", .str "h"), ("text/plain", .str "p")]

/-- A rich payload offering geo+json, html and plain text. -/
def richGeoEx : Json :=
  .obj [("application/geo+json", .str "g"), ("text/html", .str "h"),
        ("text/plain", .str "p")]

/-- An import document with a cells list but no kernel specification. -/
def importBadEx : Json :=
  .obj [("cells", .arr [.obj [("source", .str "x")]])]

/-- A user-authored markdown card as the frontend hands it over. -/
def cardMdEx : Card :=
  { id := 99, title := "T", sourceCode := .str "# hi", outputs := [],
    jupyterData := .null, kernel := .str "ir", isCustomMarkdown := true }

/-- A python3-flavored card. -/
def cardPyEx : Card :=
  { id := 1, title := "c", sourceCode := .str "print(1)", outputs := [],
    jupyterData := .obj [], kernel := .str "python3" }

/-! ## Claims -/

/-- C3, counterexample: finalization does *not* clear the pending source
code.  On a state whose pending source is `"x"`, the buffer after
`makeCard` still holds `"x"`. -/
theorem makeCard_retains_sourceTmp_cex :
    ¬ ((makeCard c3StateEx).1.sourceTmp = "") := by
  decide

/-- C3 (amended): after finalization, `makeCard` clears the pending
outputs and the pending interchange snapshot and advances the id
counter, but the pending source code is retained unchanged (it is only
overwritten by the next echo-of-source message). -/
theorem makeCard_reset_clears_outputs_and_snapshot (s : AggState) :
    (makeCard s).1.contentTmp = [] ∧
    (makeCard s).1.jupyterData = ({} : JupyterData) ∧
    (makeCard s).1.sourceTmp = s.sourceTmp ∧
    (makeCard s).1.id = s.id + 1 :=
  ⟨rfl, rfl, rfl, rfl⟩

/-- C10: a card flagged `isCustomMarkdown` that the collection owner
adds or edits is unconditionally given kernel flavor `"python3"` and its
interchange data is replaced by the synthesized minimal markdown cell
shape (cell_type `"markdown"`, empty metadata, source equal to the
card's `sourceCode`); such a card satisfies the export partition filter
for `python3` and for no other flavor. -/
theorem customMarkdown_forced_python3 (cards : List Card) (card : Card)
    (idCtr : Nat) (index : Int) (hmd : card.isCustomMarkdown = true) :
    ((addCustomCard cards card idCtr).1 =
        cards ++ [({ card with
                     id := idCtr,
                     kernel := .str "python3",
                     jupyterData := customMarkdownShape card.sourceCode })]) ∧
    (index > -1 → index < cards.length →
      editCustomCard cards index card =
        cards.set index.toNat
          { card with kernel := .str "python3",
                      jupyterData := customMarkdownShape card.sourceCode }) ∧
    (∀ k : String,
      jsStrictEqStr (Json.str "python3") k = true ↔ k = "python3") := by
  refine ⟨?_, ?_, ?_⟩
  · simp [addCustomCard, hmd]
  · intro h1 h2
    simp only [editCustomCard, hmd]
    rw [if_pos]
    · rfl
    · simp [h1, h2]
  · intro k
    simp [jsStrictEqStr, eq_comm]

/-- C10 witness: the amendment-free claim applied to a concrete markdown
card. -/
theorem customMarkdown_forced_python3_witness :
    (addCustomCard [] cardMdEx 0).1 =
      [({ cardMdEx with
          id := 0,
          kernel := .str "python3",
          jupyterData := customMarkdownShape cardMdEx.sourceCode })] ∧
    editCustomCard [cardPyEx] 0 cardMdEx =
      [({ cardMdEx with
          kernel := .str "python3",
          jupyterData := customMarkdownShape cardMdEx.sourceCode })] := by
  have h := customMarkdown_forced_python3 [] cardMdEx 0 0 rfl
  have h2 := customMarkdown_forced_python3 [cardPyEx] cardMdEx 0 0 rfl
  exact ⟨by simpa using h.1, by simpa using h2.2.1 (by decide) (by decide)⟩

/-- C9: export never persists an empty sub-document.  For any selection
that resolves, if no selected card has strict kernel equality with a
flavor's name, then no write event (file write plus "Exported … cards"
notification) for that flavor's sub-document occurs — in particular a
collection with zero `ir` records never produces an `r` file, no matter
how many `python3` records are exported, and vice versa. -/
theorem export_skips_empty_subdocument (cards : List Card)
    (indexes : Option (List Nat)) (fileName : Option String)
    (hasWorkspace : Bool) (sel : List Card)
    (hsel : selectCards cards indexes = .ok sel) :
    ((∀ c ∈ sel, jsStrictEqStr c.kernel "ir" = false) →
      ∀ e ∈ (exportToJupyter cards indexes fileName hasWorkspace).1,
        e.kernelName ≠ "r") ∧
    ((∀ c ∈ sel, jsStrictEqStr c.kernel "python3" = false) →
      ∀ e ∈ (exportToJupyter cards indexes fileName hasWorkspace).1,
        e.kernelName ≠ "python3") := by
  constructor
  · intro hnone e he
    have hfilter : sel.filter (fun c => jsStrictEqStr c.kernel "ir") = [] :=
      List.filter_eq_nil_iff.mpr (fun c hc => by simp [hnone c hc])
    simp only [exportToJupyter, hsel, hfilter, List.map_nil, writeToFile,
      List.length_nil] at he
    by_cases hw : hasWorkspace
    · simp only [hw, Bool.not_true, Bool.false_eq_true, if_false, gt_iff_lt,
        lt_irrefl] at he
      by_cases hp : 0 < (List.map (fun c => c.jupyterData)
          (List.filter (fun c => jsStrictEqStr c.kernel "python3") sel)).length
      · simp only [hp, if_true, List.append_nil, List.mem_singleton] at he
        subst he
        simp
      · simp only [hp, if_false, List.append_nil] at he
        simp at he
    · simp only [hw, Bool.not_false, if_true] at he
      simp at he
  · intro hnone e he
    have hfilter : sel.filter (fun c => jsStrictEqStr c.kernel "python3") = [] :=
      List.filter_eq_nil_iff.mpr (fun c hc => by simp [hnone c hc])
    simp only [exportToJupyter, hsel, hfilter, List.map_nil, writeToFile,
      List.length_nil] at he
    by_cases hw : hasWorkspace
    · simp only [hw, Bool.not_true, Bool.false_eq_true, if_false, gt_iff_lt,
        lt_irrefl] at he
      by_cases hr : 0 < (List.map (fun c => c.jupyterData)
          (List.filter (fun c => jsStrictEqStr c.kernel "ir") sel)).length
      · simp only [hr, if_true, List.nil_append, List.mem_singleton] at he
        subst he
        simp
      · simp only [hr, if_false, List.nil_append] at he
        simp at he
    · simp only [hw, Bool.not_false, if_true] at he
      simp at he

/-- C9 witness: exporting one python3 card writes no `r` file. -/
theorem export_skips_empty_subdocument_witness :
    "r" ∉ (exportToJupyter [cardPyEx] none none true).1.map
      WriteEvent.kernelName := by
  intro hmem
  obtain ⟨e, he, hkn⟩ := List.mem_map.mp hmem
  exact (export_skips_empty_subdocument [cardPyEx] none none true [cardPyEx]
    rfl).1 (by intro c hc; simp only [List.mem_singleton] at hc; subst hc; decide)
    e he hkn

/-- C6, counterexample: a stream-output message whose text arrives as an
array of fragments appends *no* output entry — the handler only pushes
when `typeof text === "string"` — so no `stdout` entry holding the
concatenation `"ab"` exists. -/
theorem stream_array_appends_nothing_cex :
    (processContent streamArrMsgEx aggInit).state.contentTmp = [] ∧
    (([] : List CardOutput) ≠ [⟨Json.str "stdout", Json.str "ab"⟩]) :=
  ⟨rfl, by simp⟩

/-- C6 (amended): for every stream-output message (a message carrying a
stream name field and neither an execution-state nor a code field), the
aggregator appends exactly one output entry of kind `stdout` whose
payload is the message's text when the text is a single string, and
appends no output entry at all when the text is not a string (in
particular when it arrives as an array of fragments). -/
theorem stream_output_appends_string_text (m : IOPubMsg) (s : AggState)
    (h1 : hasKey m.content "execution_state" = false)
    (h2 : hasKey m.content "code" = false)
    (h3 : hasKey m.content "name" = true) :
    (∀ t, getKey m.content "text" = .str t →
      (processContent m s).state.contentTmp =
        s.contentTmp ++ [⟨.str "stdout", .str t⟩]) ∧
    (Json.isStr (getKey m.content "text") = false →
      (processContent m s).state.contentTmp = s.contentTmp) := by
  constructor
  · intro t ht
    simp only [processContent, h1, h2, h3, Bool.false_eq_true, if_false,
      if_true, ht]
    rfl
  · intro ht
    simp only [processContent, h1, h2, h3, Bool.false_eq_true, if_false,
      if_true]
    cases hg : getKey m.content "text" with
    | str t => rw [hg] at ht; simp [Json.isStr] at ht
    | _ => rfl

/-- C6 witness: the amended claim applied to the two concrete stream
messages. -/
theorem stream_output_appends_string_text_witness :
    (processContent streamMsgEx aggInit).state.contentTmp =
      [⟨Json.str "stdout", Json.str "hi"⟩] ∧
    (processContent streamArrMsgEx aggInit).state.contentTmp = [] := by
  constructor
  · have h := (stream_output_appends_string_text streamMsgEx aggInit
      rfl rfl rfl).1 "hi" rfl
    simpa [aggInit] using h
  · have h := (stream_output_appends_string_text streamArrMsgEx aggInit
      rfl rfl rfl).2 rfl
    simpa [aggInit] using h

/-- C2, counterexample: a message handled by the stream-output case *is*
also applied by the auxiliary-artifact block — its metadata is copied
into the interchange snapshot and its tagged content is appended to the
snapshot's raw-outputs list, in the same step that pushes the `stdout`
entry. -/
theorem stream_also_copied_to_snapshot_cex :
    (processContent streamMsgEx aggInit).state.contentTmp =
      [⟨Json.str "stdout", Json.str "hi"⟩] ∧
    (processContent streamMsgEx aggInit).state.jupyterData.metadata =
      some (Json.obj []) ∧
    (processContent streamMsgEx aggInit).state.jupyterData.outputs =
      some [Json.obj [("name", .str "stdout"), ("text", .str "hi"),
                      ("output_type", .str "stream")]] ∧
    (processContent streamMsgEx aggInit).state.jupyterData.outputs ≠
      aggInit.jupyterData.outputs :=
  ⟨rfl, rfl, rfl, fun h => Option.noConfusion h⟩

/-- C2 (amended): the five key-presence classification cases are
evaluated first-match, so every message takes exactly one branch of the
dispatch; but the interchange-snapshot copy is not restricted to
messages matching no earlier case — it applies to every message that
lacks both the execution-state and the code field (and whose processing
does not throw), including messages handled by the stream-output,
rich-result, or error case. -/
theorem dispatch_first_match_and_snapshot_copy :
    (∀ c : List (String × Json),
      (classifyMsg c = .status ↔ hasKey c "execution_state" = true) ∧
      (classifyMsg c = .echo ↔ hasKey c "execution_state" = false ∧
        hasKey c "code" = true) ∧
      (classifyMsg c = .stream ↔ hasKey c "execution_state" = false ∧
        hasKey c "code" = false ∧ hasKey c "name" = true) ∧
      (classifyMsg c = .rich ↔ hasKey c "execution_state" = false ∧
        hasKey c "code" = false ∧ hasKey c "name" = false ∧
        hasKey c "data" = true) ∧
      (classifyMsg c = .errorMsg ↔ hasKey c "execution_state" = false ∧
        hasKey c "code" = false ∧ hasKey c "name" = false ∧
        hasKey c "data" = false ∧
        (hasKey c "ename" && hasKey c "evalue" && hasKey c "traceback") = true) ∧
      (classifyMsg c = .other ↔ hasKey c "execution_state" = false ∧
        hasKey c "code" = false ∧ hasKey c "name" = false ∧
        hasKey c "data" = false ∧
        (hasKey c "ename" && hasKey c "evalue" && hasKey c "traceback") = false)) ∧
    (∀ (m : IOPubMsg) (s : AggState),
      hasKey m.content "execution_state" = false →
      hasKey m.content "code" = false →
      (processContent m s).threw = false →
      (processContent m s).state.jupyterData.metadata = some m.metadata ∧
      (processContent m s).state.jupyterData.outputs =
        some (s.jupyterData.outputs.getD [] ++ [auxOutput m])) := by
  constructor
  · intro c
    unfold classifyMsg
    split_ifs with h1 h2 h3 h4 h5 <;>
      simp_all [Bool.and_eq_true]
  · intro m s h1 h2 hthrew
    simp only [processContent, h1, h2, Bool.false_eq_true, if_false] at hthrew ⊢
    by_cases h3 : hasKey m.content "name"
    · simp only [h3, if_true] at hthrew ⊢
      cases hg : getKey m.content "text" <;>
        cases ho : s.jupyterData.outputs <;>
          simp [applyAux, ho]
    · simp only [h3, Bool.false_eq_true, if_false] at hthrew ⊢
      by_cases h4 : hasKey m.content "data"
      · simp only [h4, if_true] at hthrew ⊢
        cases hr : interpretRich (getKey m.content "data") with
        | error e => rw [hr] at hthrew; simp at hthrew
        | ok co =>
            cases ho : s.jupyterData.outputs <;>
              simp [applyAux, ho]
      · simp only [h4, Bool.false_eq_true, if_false] at hthrew ⊢
        by_cases h5 : (hasKey m.content "ename" && hasKey m.content "evalue" &&
            hasKey m.content "traceback") = true
        · simp only [h5, if_true] at hthrew ⊢
          cases hv : getKey m.content "evalue" with
          | str t =>
              cases ht : getKey m.content "traceback" with
              | arr xs =>
                  cases ho : s.jupyterData.outputs <;>
                    simp [applyAux, ho]
              | undefined => rw [hv, ht] at hthrew; simp at hthrew
              | null => rw [hv, ht] at hthrew; simp at hthrew
              | bool b => rw [hv, ht] at hthrew; simp at hthrew
              | num n => rw [hv, ht] at hthrew; simp at hthrew
              | str t2 => rw [hv, ht] at hthrew; simp at hthrew
              | obj fs => rw [hv, ht] at hthrew; simp at hthrew
          | undefined => rw [hv] at hthrew; simp at hthrew
          | null => rw [hv] at hthrew; simp at hthrew
          | bool b => rw [hv] at hthrew; simp at hthrew
          | num n => rw [hv] at hthrew; simp at hthrew
          | arr xs => rw [hv] at hthrew; simp at hthrew
          | obj fs => rw [hv] at hthrew; simp at hthrew
        · simp only [h5, if_false] at hthrew ⊢
          cases ho : s.jupyterData.outputs <;>
            simp [applyAux, ho]

/-- C2 witness: the snapshot-copy rule applied to the concrete stream
message. -/
theorem dispatch_first_match_and_snapshot_copy_witness :
    (processContent streamMsgEx aggInit).state.jupyterData.metadata =
      some (Json.obj []) ∧
    (processContent streamMsgEx aggInit).state.jupyterData.outputs =
      some [auxOutput streamMsgEx] := by
  have h := dispatch_first_match_and_snapshot_copy.2 streamMsgEx aggInit
    rfl rfl rfl
  simpa [aggInit] using h

/-- The head of a filtered list is the first element satisfying the
predicate. -/
theorem filter_head?_eq_find? {α : Type} (p : α → Bool) (l : List α) :
    (l.filter p).head? = l.find? p := by
  induction l with
  | nil => rfl
  | cons a t ih =>
      by_cases h : p a <;> simp [List.filter_cons, List.find?_cons, h, ih]

/-- Two predicates agreeing on a list give the same first hit. -/
theorem find?_congr_on {α : Type} (p q : α → Bool) :
    ∀ l : List α, (∀ k ∈ l, p k = q k) → l.find? p = l.find? q := by
  intro l
  induction l with
  | nil => intro _; rfl
  | cons a t ih =>
      intro h
      have ha := h a (List.mem_cons_self a t)
      have ht : ∀ k ∈ t, p k = q k := fun k hk => h k (List.mem_cons_of_mem a hk)
      by_cases hp : p a = true
      · simp [List.find?_cons, hp, ha ▸ hp]
      · have hq : ¬ q a = true := fun hqa => hp (ha ▸ hqa)
        simp only [List.find?_cons]
        rw [Bool.of_not_eq_true hp, Bool.of_not_eq_true hq]
        exact ih ht

/-- `find?` over an append returns an element of the first part whenever
the first part contains an element satisfying the predicate. -/
theorem find?_append_of_mem_left {α : Type} (p : α → Bool) :
    ∀ (l₁ l₂ : List α) (a : α), a ∈ l₁ → p a = true →
      ∃ c, c ∈ l₁ ∧ (l₁ ++ l₂).find? p = some c := by
  intro l₁
  induction l₁ with
  | nil => intro l₂ a ha _; exact absurd ha (List.not_mem_nil a)
  | cons x t ih =>
      intro l₂ a ha hp
      by_cases hx : p x = true
      · exact ⟨x, List.mem_cons_self x t, by simp [List.find?_cons, hx]⟩
      · have hat : a ∈ t := by
          rcases List.mem_cons.mp ha with h | h
          · subst h; exact absurd hp hx
          · exact h
        obtain ⟨c, hc, hfind⟩ := ih l₂ a hat hp
        refine ⟨c, List.mem_cons_of_mem _ hc, ?_⟩
        simpa [List.find?_cons, hx] using hfind

/-- C7, counterexample: a payload offering both `text/html` and
`text/plain` does not always yield `text/html` — when a key earlier in
the preference list (here `application/geo+json`) is also present, that
key wins. -/
theorem classifier_html_not_always_chosen_cex :
    chooseTypeFromComplexData richGeoEx = .ok (.str "application/geo+json") ∧
    chooseTypeFromComplexData richGeoEx ≠ .ok (.str "text/html") := by
  refine ⟨rfl, fun h => ?_⟩
  have h1 : (Except.ok (Json.str "application/geo+json") : Except Unit Json) =
      .ok (.str "text/html") := by
    rw [show chooseTypeFromComplexData richGeoEx =
      .ok (.str "application/geo+json") from rfl] at h
    exact h
  have h2 : Json.str "application/geo+json" = Json.str "text/html" := by
    injection h1
  injection h2 with h3
  exact absurd h3 (by decide)

/-- C7 (amended): the Rich-Output Classifier is a pure function of the
representation-key presence on the payload — equal key sets give equal
results — and it returns the first key of the fixed preference list that
is present; consequently a payload offering both `text/html` and
`text/plain` never yields `text/plain` (and yields `text/html` exactly
when no earlier-listed key is also present). -/
theorem classifier_deterministic_first_key :
    (∀ fs fs' : List (String × Json),
      (∀ k ∈ validDataTypes,
        validateData (.obj fs) k = validateData (.obj fs') k) →
      chooseTypeFromComplexData (.obj fs) =
        chooseTypeFromComplexData (.obj fs')) ∧
    (∀ fs : List (String × Json),
      chooseTypeFromComplexData (.obj fs) =
        .ok (match validDataTypes.find? (fun t => validateData (.obj fs) t) with
             | some t => .str t
             | none => .undefined)) ∧
    (∀ fs : List (String × Json),
      validateData (.obj fs) "text/html" = true →
      chooseTypeFromComplexData (.obj fs) ≠ .ok (.str "text/plain")) := by
  have hfirst : ∀ fs : List (String × Json),
      chooseTypeFromComplexData (.obj fs) =
        .ok (match validDataTypes.find? (fun t => validateData (.obj fs) t) with
             | some t => .str t
             | none => .undefined) := by
    intro fs
    unfold chooseTypeFromComplexData
    rw [filter_head?_eq_find?]
  refine ⟨?_, hfirst, ?_⟩
  · intro fs fs' hsame
    rw [hfirst fs, hfirst fs']
    have heq : validDataTypes.find? (fun t => validateData (.obj fs) t) =
        validDataTypes.find? (fun t => validateData (.obj fs') t) :=
      find?_congr_on _ _ validDataTypes hsame
    rw [heq]
  · intro fs hhtml hplain
    rw [hfirst fs] at hplain
    have hdecomp : validDataTypes =
        ["application/vnd.jupyter", "application/vnd.jupyter.cells",
         "application/vnd.jupyter.dragindex", "application/x-ipynb+json",
         "application/geo+json", "application/vnd.plotly.v1+json",
         "application/vdom.v1+json", "text/html"] ++
        ["image/svg+xml", "image/png", "image/jpeg", "text/markdown",
         "application/pdf", "text/latex", "application/json", "text/plain"] :=
      rfl
    obtain ⟨c, hcmem, hcfind⟩ := find?_append_of_mem_left
      (fun t => validateData (.obj fs) t)
      ["application/vnd.jupyter", "application/vnd.jupyter.cells",
       "application/vnd.jupyter.dragindex", "application/x-ipynb+json",
       "application/geo+json", "application/vnd.plotly.v1+json",
       "application/vdom.v1+json", "text/html"]
      ["image/svg+xml", "image/png", "image/jpeg", "text/markdown",
       "application/pdf", "text/latex", "application/json", "text/plain"]
      "text/html" (by decide) hhtml
    rw [hdecomp, hcfind] at hplain
    have hc : Json.str c = Json.str "text/plain" := by
      injection hplain
    injection hc with hceq
    subst hceq
    exact absurd hcmem (by decide)

/-- C7 witness: determinism and html-over-plain applied at concrete
payloads. -/
theorem classifier_deterministic_first_key_witness :
    chooseTypeFromComplexData (.obj [("text/html", .str "A")]) =
      chooseTypeFromComplexData (.obj [("text/html", .str "B")]) ∧
    chooseTypeFromComplexData
      (.obj [("text/html", .str "h"), ("text/plain", .str "p")]) ≠
      .ok (.str "text/plain") := by
  constructor
  · exact classifier_deterministic_first_key.1
      [("text/html", .str "A")] [("text/html", .str "B")] (by decide)
  · exact classifier_deterministic_first_key.2.2
      [("text/html", .str "h"), ("text/plain", .str "p")] rfl

/-- C5: `Interpreter.executeCode` normalizes line endings with
`source.replace("\r\n", "\n")`, and a JavaScript `replace` with a string
pattern substitutes only the *first* occurrence.  Submitting
`"a\r\nb\r\nc"` therefore sends `"a\nb\r\nc"` to the kernel — still
containing a carriage-return+newline — and the Execution Record built
from the kernel's echo of that text records a `sourceCode` that still
contains `"\r\n"`, contradicting the documented intent ("Replace windows
line endings with unix line endings") and the specified
normalization. -/
theorem crlf_normalized_only_once :
    executeCodeSent "a\r\nb\r\nc" = "a\nb\r\nc" ∧
    strContainsSub (executeCodeSent "a\r\nb\r\nc") "\r\n" = true ∧
    ((runAgg [echoMsgEx (executeCodeSent "a\r\nb\r\nc"), idleMsgEx]
        aggInit).2.map Card.sourceCode) = [.str "a\nb\r\nc"] :=
  ⟨rfl, rfl, rfl⟩

/-- Soundness of `grabGroup`: a successful grab splits the input at its
first quote, and the group is newline- and quote-free. -/
theorem grabGroup_sound :
    ∀ (r g : List Char), grabGroup r = some g →
      ∃ post, r = g ++ '\'' :: post ∧ '\n' ∉ g ∧ '\'' ∉ g := by
  intro r
  induction r with
  | nil => intro g h; simp [grabGroup] at h
  | cons c rest ih =>
      intro g h
      by_cases hq : c = '\''
      · subst hq
        simp [grabGroup] at h
        subst h
        exact ⟨rest, rfl, by simp, by simp⟩
      · by_cases hn : c = '\n'
        · subst hn
          simp [grabGroup, hq] at h
        · simp only [grabGroup, if_neg hq, if_neg hn, Option.map_eq_some'] at h
          obtain ⟨g', hg', hgg⟩ := h
          obtain ⟨post, hsplit, hnl, hql⟩ := ih g' hg'
          subst hgg
          refine ⟨post, by rw [hsplit]; rfl, ?_, ?_⟩
          · intro hmem
            rcases List.mem_cons.mp hmem with h1 | h1
            · exact hn h1.symm
            · exact hnl h1
          · intro hmem
            rcases List.mem_cons.mp hmem with h1 | h1
            · exact hq h1.symm
            · exact hql h1

/-- Completeness of `grabGroup`: a newline-free block followed by a
quote is always grabbed. -/
theorem grabGroup_isSome :
    ∀ (m post : List Char), '\n' ∉ m →
      (grabGroup (m ++ '\'' :: post)).isSome = true := by
  intro m
  induction m with
  | nil => intro post _; simp [grabGroup]
  | cons c m' ih =>
      intro post hn
      have hcn : c ≠ '\n' := fun h => hn (h ▸ List.mem_cons_self c m')
      have hm' : '\n' ∉ m' := fun h => hn (List.mem_cons_of_mem c h)
      by_cases hq : c = '\''
      · simp [grabGroup, hq]
      · simp only [List.cons_append, grabGroup, if_neg hq, if_neg hcn]
        have hs := ih post hm'
        cases hg : grabGroup (m' ++ '\'' :: post) with
        | none => rw [hg] at hs; simp at hs
        | some g => simp

/-- Soundness of `matchQuoted`. -/
theorem matchQuoted_sound (r g : List Char) (h : matchQuoted r = some g) :
    ∃ post, r = g ++ '\'' :: post ∧ g ≠ [] ∧ '\n' ∉ g := by
  cases r with
  | nil => simp [matchQuoted] at h
  | cons c rest =>
      by_cases hn : c = '\n'
      · subst hn; simp [matchQuoted] at h
      · simp only [matchQuoted, if_neg hn, Option.map_eq_some'] at h
        obtain ⟨g', hg', hgg⟩ := h
        obtain ⟨post, hsplit, hnl, _⟩ := grabGroup_sound rest g' hg'
        subst hgg
        refine ⟨post, by rw [hsplit]; rfl, by simp, ?_⟩
        intro hmem
        rcases List.mem_cons.mp hmem with h1 | h1
        · exact hn h1.symm
        · exact hnl h1

/-- Completeness of `matchQuoted`. -/
theorem matchQuoted_isSome (m post : List Char) (hne : m ≠ [])
    (hn : '\n' ∉ m) : (matchQuoted (m ++ '\'' :: post)).isSome = true := by
  cases m with
  | nil => exact absurd rfl hne
  | cons c m' =>
      have hcn : c ≠ '\n' := fun h => hn (h ▸ List.mem_cons_self c m')
      have hm' : '\n' ∉ m' := fun h => hn (List.mem_cons_of_mem c h)
      simp only [List.cons_append, matchQuoted, if_neg hcn]
      have hs := grabGroup_isSome m' post hm'
      cases hg : grabGroup (m' ++ '\'' :: post) with
      | none => rw [hg] at hs; simp at hs
      | some g => simp

/-- Soundness of `scanMatch`: a successful scan exhibits a full match of
the module-pattern regex somewhere in the input. -/
theorem scanMatch_sound :
    ∀ (l g : List Char), scanMatch l = some g →
      ∃ pre post, l = pre ++ modulePat ++ g ++ '\'' :: post ∧
        g ≠ [] ∧ '\n' ∉ g := by
  intro l
  induction l with
  | nil => intro g h; simp [scanMatch] at h
  | cons c rest ih =>
      intro g h
      unfold scanMatch at h
      by_cases hpre : modulePat.isPrefixOf (c :: rest) = true
      · rw [if_pos hpre] at h
        cases hm : matchQuoted ((c :: rest).drop modulePat.length) with
        | some g0 =>
            rw [hm] at h
            have hg : g0 = g := by
              simpa using h
            subst hg
            obtain ⟨t, ht⟩ := List.isPrefixOf_iff_prefix.mp hpre
            rw [← ht, List.drop_left] at hm
            obtain ⟨post, hsplit, hne, hnl⟩ := matchQuoted_sound t g0 hm
            refine ⟨[], post, ?_, hne, hnl⟩
            rw [← ht, hsplit]
            simp
        | none =>
            rw [hm] at h
            obtain ⟨pre, post, hsplit, hne, hnl⟩ := ih g h
            exact ⟨c :: pre, post, by simp [hsplit], hne, hnl⟩
      · rw [if_neg hpre] at h
        obtain ⟨pre, post, hsplit, hne, hnl⟩ := ih g h
        exact ⟨c :: pre, post, by simp [hsplit], hne, hnl⟩

/-- Completeness of `scanMatch`: the scan succeeds whenever some suffix
starts with a full match. -/
theorem scanMatch_complete :
    ∀ (l₁ l₂ : List Char), modulePat.isPrefixOf l₂ = true →
      (matchQuoted (l₂.drop modulePat.length)).isSome = true →
      (scanMatch (l₁ ++ l₂)).isSome = true := by
  intro l₁
  induction l₁ with
  | nil =>
      intro l₂ hpre hq
      rw [List.nil_append]
      cases l₂ with
      | nil => simp [modulePat] at hpre
      | cons c rest =>
          unfold scanMatch
          rw [if_pos hpre]
          cases hm : matchQuoted ((c :: rest).drop modulePat.length) with
          | none => rw [hm] at hq; simp at hq
          | some g => simp
  | cons c l₁' ih =>
      intro l₂ hpre hq
      rw [List.cons_append]
      unfold scanMatch
      have htail := ih l₂ hpre hq
      cases hX : (if modulePat.isPrefixOf (c :: (l₁' ++ l₂)) = true then
          matchQuoted ((c :: (l₁' ++ l₂)).drop modulePat.length) else none) with
      | some g => simp [hX]
      | none => simpa [hX] using htail

/-- C8: the Dependency-Gap Detector yields the quote-stripped module
identifier exactly when the error value contains a
`No module named 'foo'`-style pattern (the literal prefix followed by a
nonempty, newline-free lazily-captured group closed by a quote), and
yields nothing otherwise; on the concrete inputs, an error value
containing `No module named 'foo'` yields `foo` and an error value
without the pattern yields nothing. -/
theorem getMissingModule_detects_pattern :
    (∀ s : String, ((getMissingModule s).isSome = true ↔ hasModulePattern s)) ∧
    getMissingModule "ModuleNotFoundError: No module named 'foo'" =
      some "foo" ∧
    getMissingModule "name 'foo' is not defined" = none := by
  refine ⟨?_, rfl, rfl⟩
  intro s
  have hiff : (getMissingModule s).isSome = (scanMatch s.data).isSome := by
    cases hs : scanMatch s.data <;> simp [getMissingModule, hs]
  rw [hiff]
  constructor
  · intro h
    obtain ⟨g, hg⟩ := Option.isSome_iff_exists.mp h
    obtain ⟨pre, post, hsplit, hne, hnl⟩ := scanMatch_sound s.data g hg
    exact ⟨pre, g, post, hsplit, hne, hnl⟩
  · rintro ⟨pre, m, post, hsplit, hne, hnl⟩
    have hpre : modulePat.isPrefixOf (modulePat ++ (m ++ '\'' :: post)) = true :=
      List.isPrefixOf_iff_prefix.mpr ⟨m ++ '\'' :: post, rfl⟩
    have hq : (matchQuoted ((modulePat ++
        (m ++ '\'' :: post)).drop modulePat.length)).isSome = true := by
      rw [List.drop_left]
      exact matchQuoted_isSome m post hne hnl
    have hs := scanMatch_complete pre (modulePat ++ (m ++ '\'' :: post)) hpre hq
    have hall : s.data = pre ++ (modulePat ++ (m ++ '\'' :: post)) := by
      simpa [List.append_assoc] using hsplit
    rw [hall]
    exact hs

/-- C8 witness: the pattern characterization applied at a concrete
error value. -/
theorem getMissingModule_detects_pattern_witness :
    hasModulePattern "ModuleNotFoundError: No module named 'foo'" :=
  (getMissingModule_detects_pattern.1
    "ModuleNotFoundError: No module named 'foo'").mp rfl

/-- C4: for every input document that does not structurally match the
expected notebook shape (a cells list and a readable kernel
specification), import fails with exactly the single "unknown format"
notice and emits *no* card to the collection owner — the emission pass
only runs after every cell's card was built, and a missing kernel
specification aborts the build of the very first card (or, for an empty
cells list, aborts the tail before anything could be emitted). -/
theorem import_bad_shape_no_partial (j : Json) (startId : Nat)
    (h : ¬ goodNotebookShape j) :
    importJupyter j startId = ([], true) := by
  cases hcv : jsGet j "cells" with
  | error e =>
      cases e
      unfold importJupyter
      rw [hcv]
  | ok cv =>
      cases cv with
      | arr cells =>
          have hks : kernelspecName j = .error () := by
            cases hke : kernelspecName j with
            | error e => cases e; rfl
            | ok v => exact absurd ⟨⟨cells, hcv⟩, ⟨v, hke⟩⟩ h
          cases cells with
          | nil =>
              unfold importJupyter
              rw [hcv]
              simp only [buildCards]
              unfold importTail
              rw [hks]
          | cons cell rest =>
              have hbuild : buildCards j (cell :: rest) startId = .error () := by
                unfold buildCards
                cases h1 : jsGet cell "source" with
                | error e1 => cases e1; rfl
                | ok s0 =>
                    cases h2 : jsGet cell "outputs" with
                    | error e2 => cases e2; rfl
                    | ok outv =>
                        cases h3 : processJupyterOutputs outv with
                        | error e3 => cases e3; simp [h3]
                        | ok outs => simp [h3, hks]
              simp [importJupyter, hcv, hbuild]
      | undefined => unfold importJupyter; rw [hcv]
      | null => unfold importJupyter; rw [hcv]
      | bool b => unfold importJupyter; rw [hcv]
      | num n => unfold importJupyter; rw [hcv]
      | str s => unfold importJupyter; rw [hcv]
      | obj fs => unfold importJupyter; rw [hcv]

/-- C4 witness: a document with cells but no kernel specification
imports to no cards and one notice. -/
theorem import_bad_shape_no_partial_witness :
    importJupyter importBadEx 0 = ([], true) :=
  import_bad_shape_no_partial importBadEx 0 (by
    rintro ⟨-, v, hv⟩
    have hke : kernelspecName importBadEx = Except.error () := rfl
    rw [hke] at hv
    exact Except.noConfusion hv)

/-- Each processed message fires exactly one card when it is an idle
status message, and none otherwise. -/
theorem processContent_cards_length (m : IOPubMsg) (s : AggState) :
    (processContent m s).cards.length = cond (isIdleMsg m) 1 0 := by
  unfold processContent isIdleMsg
  by_cases h1 : hasKey m.content "execution_state"
  · by_cases h2 : jsStrictEqStr (getKey m.content "execution_state") "idle" <;>
      simp [h1, h2]
  · simp only [h1, Bool.false_eq_true, if_false, Bool.false_and, cond_false]
    by_cases h2 : hasKey m.content "code"
    · simp only [h2, if_true]
      cases hg : getKey m.content "code" with
      | str t => rfl
      | _ => rfl
    · simp only [h2, Bool.false_eq_true, if_false]
      by_cases h3 : hasKey m.content "name"
      · simp only [h3, if_true]
        cases hg : getKey m.content "text" with
        | str t => rfl
        | _ => rfl
      · simp only [h3, Bool.false_eq_true, if_false]
        by_cases h4 : hasKey m.content "data"
        · simp only [h4, if_true]
          cases hr : interpretRich (getKey m.content "data") with
          | ok co => rfl
          | error e => rfl
        · simp only [h4, Bool.false_eq_true, if_false]
          by_cases h5 : (hasKey m.content "ename" && hasKey m.content "evalue" &&
              hasKey m.content "traceback") = true
          · simp only [h5, if_true]
            cases hv : getKey m.content "evalue" with
            | str t =>
                cases ht : getKey m.content "traceback" with
                | arr xs => rfl
                | _ => rfl
            | _ => rfl
          · simp only [h5, if_false]
            rfl

/-- Each processed message extends the pending-output invariant: the
outputs of the cards it fires, followed by the new pending outputs,
equal the old pending outputs followed by the message's contributed
output entry. -/
theorem processContent_outputs_step (m : IOPubMsg) (s : AggState) :
    ((processContent m s).cards.map Card.outputs).join ++
        (processContent m s).state.contentTmp =
      s.contentTmp ++ (producedOutput m).toList := by
  unfold processContent producedOutput
  by_cases h1 : hasKey m.content "execution_state"
  · by_cases h2 : jsStrictEqStr (getKey m.content "execution_state") "idle" <;>
      simp [h1, h2, makeCard]
  · simp only [h1, Bool.false_eq_true, if_false]
    by_cases h2 : hasKey m.content "code"
    · simp only [h2, if_true]
      cases hg : getKey m.content "code" with
      | str t => simp
      | _ => simp
    · simp only [h2, Bool.false_eq_true, if_false]
      by_cases h3 : hasKey m.content "name"
      · simp only [h3, if_true]
        cases hg : getKey m.content "text" with
        | str t => simp [applyAux]
        | _ => simp [applyAux]
      · simp only [h3, Bool.false_eq_true, if_false]
        by_cases h4 : hasKey m.content "data"
        · simp only [h4, if_true]
          cases hr : interpretRich (getKey m.content "data") with
          | ok co => simp [applyAux]
          | error e => simp
        · simp only [h4, Bool.false_eq_true, if_false]
          by_cases h5 : (hasKey m.content "ename" && hasKey m.content "evalue" &&
              hasKey m.content "traceback") = true
          · simp only [h5, if_true]
            cases hv : getKey m.content "evalue" with
            | str t =>
                cases ht : getKey m.content "traceback" with
                | arr xs => simp [applyAux]
                | _ => simp
            | _ => simp
          · simp only [h5, if_false]
            simp [applyAux]

/-- C1: exactly one Execution Record is emitted per idle status message
(and none for any other message): per message, the fired-card count is 1
for an idle status message and 0 otherwise; over any run, the number of
emitted records equals the number of idle status messages; and the
emitted records' outputs, in emission order, followed by the final
pending outputs, are exactly the output entries contributed by the
messages in arrival order — so each record lists its output entries in
the order the producing messages arrived. -/
theorem aggregator_one_record_per_idle :
    (∀ (m : IOPubMsg) (s : AggState),
      (processContent m s).cards.length = cond (isIdleMsg m) 1 0) ∧
    (∀ (msgs : List IOPubMsg) (s : AggState),
      (runAgg msgs s).2.length =
        (msgs.filter (fun m => isIdleMsg m)).length) ∧
    (∀ (msgs : List IOPubMsg) (s : AggState),
      ((runAgg msgs s).2.map Card.outputs).join ++
          (runAgg msgs s).1.contentTmp =
        s.contentTmp ++ msgs.filterMap producedOutput) := by
  refine ⟨processContent_cards_length, ?_, ?_⟩
  · intro msgs
    induction msgs with
    | nil => intro s; rfl
    | cons m ms ih =>
        intro s
        simp only [runAgg, List.length_append, List.filter_cons]
        rw [processContent_cards_length, ih]
        cases hi : isIdleMsg m <;> simp [Nat.add_comm]
  · intro msgs
    induction msgs with
    | nil => intro s; simp [runAgg]
    | cons m ms ih =>
        intro s
        simp only [runAgg, List.map_append, List.join_append,
          List.filterMap_cons]
        rw [List.append_assoc, ih (processContent m s).state]
        rw [← List.append_assoc, processContent_outputs_step]
        cases hp : producedOutput m <;> simp
